import Mathlib

/-!
Shallow embedding of the mdoc/man viewer core (doc.go second revision,
render.go) and proofs about its tokenizer, macro interpreter, document
builder, span merge pass and column-table renderer.

Go `string` values are modelled as `List Char` (all inputs of interest are
ASCII, where Go's byte indexing and rune iteration coincide); `String`
wrappers are provided at the public interfaces.  Go runtime panics
(out-of-range indexing/slicing, nil dereference, explicit `panic`) are
modelled as `Option.none` / a `fail` result.
-/

namespace ManDoc

/-- `textTag` enum (doc.go / render.go, union of the revisions' constants). -/
inductive TextTag where
  | plain
  | nameRef
  | arg
  | envVar
  | var
  | path
  | subsectionHeader
  | literal
  | symbolic
  | standard
  | bold
  | italic
  | singleQuote
  | doubleQuote
  | underline
  | tableCellSeparator
deriving DecidableEq, Repr

/-- `decorationTag` enum (doc.go). -/
inductive DecorationTag where
  | noneTag
  | optional
  | parens
  | singleQuote
  | doubleQuote
  | quotedLiteral
deriving DecidableEq, Repr

/-- `listType` enum (doc.go, plus `dashList`/`columnList` referenced by render.go). -/
inductive ListType where
  | bullet
  | item
  | enum
  | tag
  | diag
  | hang
  | ohang
  | inset
  | dash
  | column
deriving DecidableEq, Repr

/-- `font` enum (doc.go). -/
inductive Font where
  | plain
  | bold
  | italic
deriving DecidableEq, Repr

mutual
/-- The `Span` interface's concrete variants: `textSpan`, `flagSpan`,
`manRef`, `decoratedSpan` and `list` (doc.go). -/
inductive Span where
  | text (typ : TextTag) (text : String) (noSpace : Bool)
  | flag (flag : String) (dash : Bool) (noSpace : Bool)
  | xref (name : String) (sec : Option Int)
  | decorated (typ : DecorationTag) (contents : List Span)
  | listSpan (l : ListVal)

/-- The `list` struct (doc.go; `Columns` field referenced by render.go). -/
inductive ListVal where
  | mk (typ : ListType) (items : List ListItem) (compact : Bool)
      (width : Nat) (indent : Nat) (columns : List String)

/-- The `listItem` struct (doc.go). -/
inductive ListItem where
  | mk (tag : List Span) (contents : List Span)
end

def ListVal.typ : ListVal → ListType
  | .mk t _ _ _ _ _ => t

def ListVal.items : ListVal → List ListItem
  | .mk _ i _ _ _ _ => i

def ListVal.compact : ListVal → Bool
  | .mk _ _ c _ _ _ => c

def ListVal.width : ListVal → Nat
  | .mk _ _ _ w _ _ => w

def ListVal.indent : ListVal → Nat
  | .mk _ _ _ _ i _ => i

def ListVal.columns : ListVal → List String
  | .mk _ _ _ _ _ c => c

def ListItem.tag : ListItem → List Span
  | .mk t _ => t

def ListItem.contents : ListItem → List Span
  | .mk _ c => c

/-- The `section` struct (doc.go). -/
structure DocSection where
  Name : String
  Contents : List Span

/-- The `manPage` struct (doc.go). -/
structure ManPage where
  Name : String
  Section : Int
  Date : String
  Sections : List DocSection
  Extra : String

/-! ## Tokenizer: `nextToken` (doc.go lines 743-773)

The Go loop `for i, c := range input` with byte lookahead `input[i+1]` is
modelled by structural recursion; `first` records whether we are at the
start of the input (Go's `i == 0`), since the font-escape case returns the
3-byte slice `input[:3]` there.  An out-of-range index or slice
(`input[i+1]` past the end, or `input[:3]` on a shorter input) is a runtime
panic, modelled as `none`. -/

def nextTokenAux (first inQuote : Bool) (token : List Char) :
    List Char → Option (List Char × List Char)
  | [] => some (token, [])
  | c :: rest =>
    if c = '\\' then
      match rest with
      | [] => none
      | d :: rest2 =>
        if d = 'f' then
          if inQuote then
            nextTokenAux false inQuote (token ++ ['\\']) rest
          else if first then
            match rest2 with
            | [] => none
            | x :: rest3 => some (['\\', 'f', x], rest3)
          else
            some (token, c :: rest)
        else
          nextTokenAux false inQuote token rest
    else if c = '"' then
      nextTokenAux false (!inQuote) token rest
    else if c = ' ' && !inQuote then
      some (token, rest)
    else
      nextTokenAux false inQuote (token ++ [c]) rest

/-- `nextToken(input) (string, string)` on character lists. -/
def nextToken (input : List Char) : Option (List Char × List Char) :=
  nextTokenAux true false [] input

/-- `nextToken` at the public `string` interface. -/
def nextTokenS (input : String) : Option (String × String) :=
  (nextToken input.toList).map (fun p => (String.mk p.1, String.mk p.2))

example : nextTokenS "word" = some ("word", "") := by decide
example : nextTokenS "a b c" = some ("a", "b c") := by decide
example : nextTokenS ".Fl t Ns Ar man ," = some (".Fl", "t Ns Ar man ,") := by decide
example : nextTokenS "man ," = some ("man", ",") := by decide
example : nextTokenS "normal\\fBbold" = some ("normal", "\\fBbold") := by decide
example : nextTokenS "\"quoted words\" are handled" = some ("quoted words", "are handled") := by decide
example : nextTokenS "hel\\fBlo\\fR" = some ("hel", "\\fBlo\\fR") := by decide
example : nextTokenS "\\fBhello" = some ("\\fB", "hello") := by decide
example : nextTokenS "\\-\\- ok" = some ("--", "ok") := by decide
example : nextTokenS "\"\\-b\\fIn\\fP or \\-\\-buffers=\\fIn\\fP\"" =
    some ("-b\\fIn\\fP or --buffers=\\fIn\\fP", "") := by decide
example : nextTokenS "" = some ("", "") := by decide

/-! ## Macro interpreter: `parser.parseLine` (doc.go lines 775-966)

The parser's mutable font register (`lastFont`, `currentFont`). -/

structure FontSt where
  lastFont : Font
  currentFont : Font
deriving DecidableEq, Repr

/-- The loop-local state of `parseLine`'s `tokenizer:` loop: the residual
`line`, the spans emitted so far (`res`), and the `lastMacro` /
`repeatMacro` loop variables, together with the parser's font register. -/
structure LineState where
  line : List Char
  res : List Span
  lastMacro : List Char
  repeatMacro : Bool
  fonts : FontSt

/-- Result of one iteration of the `tokenizer:` loop: `done` for
`break tokenizer`, `cont` to loop again, `fail` for a Go panic (or a
failing nested parse). -/
inductive StepRes where
  | done (res : List Span) (fonts : FontSt)
  | cont (st : LineState)
  | fail

/-- The token strings that have their own `case` in `parseLine`'s switch
(every token not in this list falls to the `default:` case). -/
def knownTokens : List (List Char) :=
  [ ['F', 'l'], ['C', 'm'], ['A', 'r'], ['E', 'v'], ['V', 'a'],
    ['D', 'v'], ['P', 'a'], ['S', 'y'], ['L', 'i'], ['S', 't'],
    ['B'], ['I'], ['B', 'R'], ['R', 'B'], ['R', 'I'],
    ['I', 'R'], ['N', 's'], ['Q', 'l'], ['P', 'q'], ['S', 'q'],
    ['D', 'q'], ['O', 'p'],
    ['\\', 'f', 'B'], ['\\', 'f', 'I'], ['\\', 'f', 'R'], ['\\', 'f', 'P'],
    ['\\', '-'], ['\\', ','], ['\\', '/'],
    [','], ['|'], [] ]

/-- The switch of `parseLine`'s `tokenizer:` loop on the current token
(doc.go lines 787-962), after the `(token, rest) := nextToken(line)` pull.
`sub` performs the recursive `p.parseLine(rest)` call used by the enclosure
macros (threading the font register and returning `none` on panic). -/
def stepTok (sub : FontSt → List Char → Option (List Span × FontSt))
    (st : LineState) (token rest : List Char) : StepRes :=
    -- `if token == "" && len(rest) > 0 { line = rest; continue }` (eat spaces)
    if token = [] && rest ≠ [] then .cont { st with line := rest }
    else if token = ['F', 'l'] then -- case "Fl": command line flag with dash
      match nextToken rest with
      | none => .fail
      | some (flag, rest2) =>
        .cont { st with res := st.res ++ [.flag (String.mk flag) true false],
                        line := rest2, lastMacro := ['F', 'l'] }
    else if token = ['C', 'm'] then -- case "Cm": command line something with no dash
      match nextToken rest with
      | none => .fail
      | some (flag, rest2) =>
        .cont { st with res := st.res ++ [.flag (String.mk flag) false false],
                        line := rest2, lastMacro := ['C', 'm'] }
    else if token = ['A', 'r'] then -- case "Ar": command line argument
      match nextToken rest with
      | none => .fail
      | some (arg, rest2) =>
        let arg := if arg = [] then "file ...".toList else arg
        .cont { st with res := st.res ++ [.text .arg (String.mk arg) false],
                        line := rest2, lastMacro := ['A', 'r'] }
    else if token = ['E', 'v'] then -- case "Ev": environment variable
      match nextToken rest with
      | none => .fail
      | some (env, rest2) =>
        .cont { st with res := st.res ++ [.text .envVar (String.mk env) false],
                        line := rest2, lastMacro := ['E', 'v'] }
    else if token = ['V', 'a'] ∨ token = ['D', 'v'] then -- case "Va", "Dv": variable
      match nextToken rest with
      | none => .fail
      | some (vari, rest2) =>
        .cont { st with res := st.res ++ [.text .var (String.mk vari) false],
                        line := rest2, lastMacro := ['V', 'a'] }
    else if token = ['P', 'a'] then -- case "Pa": path
      match nextToken rest with
      | none => .fail
      | some (pa, rest2) =>
        .cont { st with res := st.res ++ [.text .path (String.mk pa) false],
                        line := rest2, lastMacro := ['P', 'a'] }
    else if token = ['S', 'y'] then -- case "Sy": symbolic
      match nextToken rest with
      | none => .fail
      | some (sym, rest2) =>
        .cont { st with res := st.res ++ [.text .symbolic (String.mk sym) false],
                        line := rest2, lastMacro := ['S', 'y'] }
    else if token = ['L', 'i'] then -- case "Li": literal
      match nextToken rest with
      | none => .fail
      | some (lit, rest2) =>
        .cont { st with res := st.res ++ [.text .literal (String.mk lit) false],
                        line := rest2, lastMacro := ['L', 'i'] }
    else if token = ['S', 't'] then -- case "St": standard
      match nextToken rest with
      | none => .fail
      | some (std, rest2) =>
        .cont { st with res := st.res ++ [.text .standard (String.mk std) false],
                        line := rest2, lastMacro := ['S', 't'] }
    else if token = ['B'] then -- case "B": bold
      match nextToken rest with
      | none => .fail
      | some (bold, rest2) =>
        .cont { st with res := st.res ++ [.text .bold (String.mk bold) false],
                        line := rest2, lastMacro := ['B'] }
    else if token = ['I'] then -- case "I": italic
      match nextToken rest with
      | none => .fail
      | some (ital, rest2) =>
        .cont { st with res := st.res ++ [.text .italic (String.mk ital) false],
                        line := rest2, lastMacro := ['I'] }
    else if token = ['B', 'R'] then -- case "BR": alternate bold and normal
      match nextToken rest with
      | none => .fail
      | some (bold, rest2) =>
        if bold ≠ [] then
          .cont { st with res := st.res ++ [.text .bold (String.mk bold) false],
                          line := "RB ".toList ++ rest2, lastMacro := ['B', 'R'] }
        else
          .cont { st with line := rest2, lastMacro := ['B', 'R'] }
    else if token = ['R', 'B'] then -- case "RB": alternate normal and bold
      match nextToken rest with
      | none => .fail
      | some (roman, rest2) =>
        if roman ≠ [] then
          .cont { st with res := st.res ++ [.text .plain (String.mk roman) false],
                          line := "BR ".toList ++ rest2, lastMacro := ['R', 'B'] }
        else
          .cont { st with line := rest2, lastMacro := ['R', 'B'] }
    else if token = ['R', 'I'] then -- case "RI": alternate normal and italic
      match nextToken rest with
      | none => .fail
      | some (roman, rest2) =>
        if roman ≠ [] then
          .cont { st with res := st.res ++ [.text .plain (String.mk roman) false],
                          line := "IR ".toList ++ rest2, lastMacro := ['R', 'I'] }
        else
          .cont { st with line := rest2, lastMacro := ['R', 'I'] }
    else if token = ['I', 'R'] then -- case "IR": alternate italic and normal
      match nextToken rest with
      | none => .fail
      | some (ital, rest2) =>
        if ital ≠ [] then
          .cont { st with res := st.res ++ [.text .italic (String.mk ital) false],
                          line := "RI ".toList ++ rest2, lastMacro := ['I', 'R'] }
        else
          .cont { st with line := rest2, lastMacro := ['I', 'R'] }
    else if token = ['N', 's'] then -- case "Ns": no space
      -- `index := len(res) - 1; last := res[index]`: indexing an empty
      -- slice at -1 is a runtime panic; a last span with no NoSpace field
      -- hits the `default: panic(...)` arm.
      match st.res.getLast? with
      | none => .fail
      | some last =>
        match last with
        | .text t x _ =>
          .cont { st with res := st.res.dropLast ++ [.text t x true], line := rest }
        | .flag f d _ =>
          .cont { st with res := st.res.dropLast ++ [.flag f d true], line := rest }
        | _ => .fail
    else if token = ['Q', 'l'] then -- case "Ql": quoted literal
      match sub st.fonts rest with
      | none => .fail
      | some (spans, fs2) => .done (st.res ++ [.decorated .quotedLiteral spans]) fs2
    else if token = ['P', 'q'] then -- case "Pq": parens
      match sub st.fonts rest with
      | none => .fail
      | some (spans, fs2) => .done (st.res ++ [.decorated .parens spans]) fs2
    else if token = ['S', 'q'] then -- case "Sq": single quote
      match sub st.fonts rest with
      | none => .fail
      | some (spans, fs2) => .done (st.res ++ [.decorated .singleQuote spans]) fs2
    else if token = ['D', 'q'] then -- case "Dq": double quote
      match sub st.fonts rest with
      | none => .fail
      | some (spans, fs2) => .done (st.res ++ [.decorated .doubleQuote spans]) fs2
    else if token = ['O', 'p'] then -- case "Op": optional
      match sub st.fonts rest with
      | none => .fail
      | some (spans, fs2) => .done (st.res ++ [.decorated .optional spans]) fs2
    else if token = ['\\', 'f', 'B'] then -- case "\fB": bold font escape
      .cont { st with fonts := ⟨st.fonts.currentFont, .bold⟩, line := rest }
    else if token = ['\\', 'f', 'I'] then -- case "\fI": italic font escape
      .cont { st with fonts := ⟨st.fonts.currentFont, .italic⟩, line := rest }
    else if token = ['\\', 'f', 'R'] then -- case "\fR": roman font escape
      .cont { st with fonts := ⟨st.fonts.currentFont, .plain⟩, line := rest }
    else if token = ['\\', 'f', 'P'] then -- case "\fP": use previous font
      .cont { st with fonts := ⟨st.fonts.lastFont, st.fonts.lastFont⟩, line := rest }
    else if token = ['\\', '-'] then -- case "\-", "\,", "\/": token[1:2], no-space
      .cont { st with res := st.res ++ [.text .plain "-" true], line := rest }
    else if token = ['\\', ','] then
      .cont { st with res := st.res ++ [.text .plain "," true], line := rest }
    else if token = ['\\', '/'] then
      .cont { st with res := st.res ++ [.text .plain "/" true], line := rest }
    else if token = [','] ∨ token = ['|'] then -- case ",", "|": separators arm repeat
      .cont { st with res := st.res ++ [.text .plain (String.mk token) false],
                      line := rest, repeatMacro := true }
    else if token = [] then -- case "": break tokenizer
      .done st.res st.fonts
    else -- default:
      if st.repeatMacro then
        .cont { st with line := st.lastMacro ++ ' ' :: st.line, repeatMacro := false }
      else
        -- the Go `default: panic("unknown font")` arm is unreachable: the
        -- font register only ever holds the three declared constants
        let style := match st.fonts.currentFont with
          | .plain => TextTag.plain
          | .bold => TextTag.bold
          | .italic => TextTag.italic
        .cont { st with res := st.res ++ [.text style (String.mk token) false],
                        line := rest }

/-- One iteration of `parseLine`'s `tokenizer:` loop (doc.go lines 785-962):
pull the next token and dispatch on it. -/
def stepCore (sub : FontSt → List Char → Option (List Span × FontSt))
    (st : LineState) : StepRes :=
  match nextToken st.line with
  | none => .fail
  | some (token, rest) => stepTok sub st token rest

/-- Iterate `stepCore` with fuel (the Go loop is unbounded; any sufficiently
large fuel yields the program's result, and exhaustion yields `none`). -/
def loopCore (sub : FontSt → List Char → Option (List Span × FontSt)) :
    Nat → LineState → Option (List Span × FontSt)
  | 0, _ => none
  | Nat.succ n, st =>
    match stepCore sub st with
    | .done r fs => some (r, fs)
    | .cont st2 => loopCore sub n st2
    | .fail => none

/-- `parser.parseLine` with fuel (bounding both loop iterations and the
nesting depth of enclosure macros): returns the emitted spans and the
updated font register, `none` on panic or fuel exhaustion. -/
def parseLineF : Nat → FontSt → List Char → Option (List Span × FontSt)
  | 0, _, _ => none
  | Nat.succ n, fs, l =>
    if l = [] then some ([], fs)
    else loopCore (parseLineF n) (Nat.succ n)
      { line := l, res := [], lastMacro := [], repeatMacro := false, fonts := fs }

/-- The font register at the start of a fresh `parser{}` (Go zero values). -/
def fonts0 : FontSt := ⟨.plain, .plain⟩

example :
    parseLineF 20 fonts0 "Fl t Ns Ar man ,".toList =
      some ([.flag "t" true true, .text .arg "man" false, .text .plain "," false],
            fonts0) := by rfl

example :
    parseLineF 20 fonts0 "hello world".toList =
      some ([.text .plain "hello" false, .text .plain "world" false], fonts0) := by
  rfl

/-! ## Document builder: `parser.parseMdoc` (doc.go lines 968-1191) -/

/-- `strings.HasPrefix` on character lists. -/
def startsWithStr : List Char → List Char → Bool
  | [], _ => true
  | _ :: _, [] => false
  | a :: as, b :: bs => a = b && startsWithStr as bs

/-- `strings.Split(doc, "\n")` on character lists. -/
def splitLines : List Char → List (List Char)
  | [] => [[]]
  | '\n' :: rest =>
    [] :: splitLines rest
  | c :: rest =>
    match splitLines rest with
    | [] => [[c]]
    | l :: ls => (c :: l) :: ls

/-- `strings.Trim(name, "\"")`: strip all leading and trailing `"`. -/
def trimQuotes (l : List Char) : List Char :=
  ((l.dropWhile (· = '"')).reverse.dropWhile (· = '"')).reverse

/-- Numeric value of a digit run. -/
def digitsVal (l : List Char) : Nat :=
  l.foldl (fun acc c => acc * 10 + (c.toNat - '0'.toNat)) 0

/-- `strconv.Atoi`: optional sign then one or more digits, nothing else
(integer overflow is not modelled). -/
def goAtoi (l : List Char) : Option Int :=
  let digits : List Char → Option Int := fun ds =>
    if ds ≠ [] && ds.all Char.isDigit then some (Int.ofNat (digitsVal ds)) else none
  match l with
  | '+' :: ds => digits ds
  | '-' :: ds => (digits ds).map Int.neg
  | ds => digits ds

/-- Whitespace class of Go's regexp `\s` (`[\t\n\f\r ]`). -/
def isSpaceRe (c : Char) : Bool :=
  c = ' ' || c = '\t' || c = '\n' || c = '\x0c' || c = '\r'

/-- `[A-Za-z_]`, the word class of the `.Dt` title regex. -/
def isWordRe (c : Char) : Bool :=
  c.isAlpha || c = '_'

/-- Match of regex `\.Dt ([A-Za-z_]+) (\d+)` at the start of `l`
(captures: title name, section digits).  The greedy `+` needs no
backtracking here because the classes are disjoint from the literals that
follow them. -/
def mdocTitleAt (l : List Char) : Option (List Char × List Char) :=
  match l with
  | '.' :: 'D' :: 't' :: ' ' :: rest =>
    let w := rest.takeWhile isWordRe
    if w = [] then none
    else
      match rest.drop w.length with
      | ' ' :: rest2 =>
        let d := rest2.takeWhile Char.isDigit
        if d = [] then none else some (w, d)
      | _ => none
  | _ => none

/-- `mdocTitle.FindStringSubmatch` (leftmost match of the unanchored regex). -/
def mdocTitleFind : List Char → Option (List Char × List Char)
  | [] => none
  | c :: rest =>
    match mdocTitleAt (c :: rest) with
    | some r => some r
    | none => mdocTitleFind rest

/-- Match of regex `\.Nm (\S+)(?: (\S+))?` at the start of `l`
(captures: name, optional second token — `[]` when the group is absent,
mirroring Go's empty submatch string). -/
def nameFullAt (l : List Char) : Option (List Char × List Char) :=
  match l with
  | '.' :: 'N' :: 'm' :: ' ' :: rest =>
    let w := rest.takeWhile (fun c => !isSpaceRe c)
    if w = [] then none
    else
      match rest.drop w.length with
      | ' ' :: rest2 =>
        let v := rest2.takeWhile (fun c => !isSpaceRe c)
        some (w, v)
      | _ => some (w, [])
  | _ => none

/-- `nameFull.FindStringSubmatch` (leftmost match). -/
def nameFullFind : List Char → Option (List Char × List Char)
  | [] => none
  | c :: rest =>
    match nameFullAt (c :: rest) with
    | some r => some r
    | none => nameFullFind rest

/-- Match of regex `\.Xr (\S+)(?: (\d+))?` at the start of `l`
(captures: name, optional digit group — `none` when absent). -/
def xrAt (l : List Char) : Option (List Char × Option (List Char)) :=
  match l with
  | '.' :: 'X' :: 'r' :: ' ' :: rest =>
    let w := rest.takeWhile (fun c => !isSpaceRe c)
    if w = [] then none
    else
      match rest.drop w.length with
      | ' ' :: rest2 =>
        let d := rest2.takeWhile Char.isDigit
        if d = [] then some (w, none) else some (w, some d)
      | _ => some (w, none)
  | _ => none

/-- `xr.FindStringSubmatchIndex` (leftmost match, with submatch presence). -/
def xrFind : List Char → Option (List Char × Option (List Char))
  | [] => none
  | c :: rest =>
    match xrAt (c :: rest) with
    | some r => some r
    | none => xrFind rest

/-- Modelled external collaborator `shlex.Split` (github.com/google/shlex):
fields separated by runs of spaces/tabs, with `"`- or `'`-quoted groups
whose quote characters are dropped; an unterminated quote is an error
(Go panics on it, hence `none`). -/
def takeQuoted (q : Char) : List Char → Option (List Char × List Char)
  | [] => none
  | c :: rest =>
    if c = q then some ([], rest)
    else (takeQuoted q rest).map (fun p => (c :: p.1, p.2))

def shlexAux (fuel : Nat) (cur : Option (List Char)) (l : List Char) :
    Option (List String) :=
  match fuel with
  | 0 => none
  | Nat.succ n =>
    match l with
    | [] =>
      match cur with
      | none => some []
      | some t => some [String.mk t]
    | c :: rest =>
      if c = ' ' || c = '\t' then
        match cur with
        | none => shlexAux n none rest
        | some t => (shlexAux n none rest).map (fun ts => String.mk t :: ts)
      else if c = '"' || c = '\'' then
        match takeQuoted c rest with
        | none => none
        | some (inner, rest2) => shlexAux n (some ((cur.getD []) ++ inner)) rest2
      else
        shlexAux n (some ((cur.getD []) ++ [c])) rest

def shlexSplit (l : List Char) : Option (List String) :=
  shlexAux (l.length + 1) none l

/-- `.Bl` option processing (doc.go lines 1109-1147): selects the list
kind, resolves `-width` (mandatory for tag lists: a missing `-width` is
`panic("missing -width argument to .Bl tag list")`, and `args[widthIdx+1]`
on a trailing `-width` is an index-out-of-range panic), `-offset indent`
and `-compact`.  Returns the freshly pushed empty list. -/
def parseBl (args : List String) : Option ListVal :=
  let sel : Option (ListType × Nat) :=
    if args.contains "-bullet" then some (.bullet, 0)
    else if args.contains "-enum" then some (.enum, 0)
    else if args.contains "-tag" then
      match List.findIdx? (fun a => a = "-width") args with
      | none => none
      | some i =>
        match args[i+1]? with
        | none => none
        | some w => some (.tag, w.length)
    else if args.contains "-diag" then some (.diag, 0)
    else if args.contains "-hang" then some (.hang, 0)
    else if args.contains "-ohang" then some (.ohang, 0)
    else if args.contains "-inset" then some (.inset, 0)
    else some (.item, 0)
  match sel with
  | none => none
  | some (t, wd) =>
    let ind : Option Nat :=
      match List.findIdx? (fun a => a = "-offset") args with
      | none => some 0
      | some i =>
        match args[i+1]? with
        | none => none
        | some v => some (if v = "indent" then 6 else 0)
    match ind with
    | none => none
    | some ind =>
      some (.mk t [] (args.contains "-compact") wd ind [])

/-- The builder state threaded over input lines: the page metadata fields,
the accumulated (already closed) sections, the in-progress section
(`currentSection`, a nil-able pointer in Go), the cached page name, the
list-nesting stack (`stack[*list]`, head = top) and the parser's font
register. -/
structure BuildState where
  name : String
  sectionNum : Int
  date : String
  extra : String
  sections : List DocSection
  current : Option DocSection
  savedName : String
  lists : List ListVal
  fonts : FontSt

/-- The `addSpans` closure (doc.go lines 979-988): append to the innermost
open list's last item if the stack is non-empty (indexing `Items[-1]` of an
item-less list is a runtime panic), else to the current section, else
`panic("can't add ..., no current section")`. -/
def addSpans (st : BuildState) (spans : List Span) : Option BuildState :=
  match st.lists with
  | top :: stk =>
    match top with
    | .mk t items c w i cols =>
      match items.getLast? with
      | none => none
      | some (.mk tg ct) =>
        some { st with lists := .mk t (items.dropLast ++ [.mk tg (ct ++ spans)]) c w i cols :: stk }
  | [] =>
    match st.current with
    | some sec => some { st with current := some ⟨sec.Name, sec.Contents ++ spans⟩ }
    | none => none

/-- Helper for branches that run `p.parseLine` and then `addSpans` with the
updated font register. -/
def addParsed (n : Nat) (st : BuildState) (pre : List Span) (l : List Char) :
    Option BuildState :=
  match parseLineF n st.fonts l with
  | none => none
  | some (spans, fs2) => addSpans { st with fonts := fs2 } (pre ++ spans)

/-- One iteration of `parseMdoc`'s line loop (doc.go lines 990-1188): the
priority-ordered classification switch.  `n` is the fuel handed to
`parseLine` calls.  Go slice expressions `line[k:]` panic when
`k > len(line)`, modelled as `none`. -/
def processLine (n : Nat) (st : BuildState) (l : List Char) : Option BuildState :=
  -- comment: `.\"` or `'\"`
  if startsWithStr ['.', '\\', '"'] l || startsWithStr ['\'', '\\', '"'] l then
    some st
  -- `.Dd`: document date, `page.Date = line[4:]`
  else if startsWithStr ['.', 'D', 'd'] l then
    if l.length < 4 then none else some { st with date := String.mk (l.drop 4) }
  else
    -- mdocTitle regex match: `.Dt` page title
    match mdocTitleFind l with
    | some (w, d) =>
      some { st with name := String.mk w, sectionNum := Int.ofNat (digitsVal d) }
    | none =>
    -- `.TH`: man page title via shlex
    if startsWithStr ['.', 'T', 'H'] l then
      if l.length < 4 then none
      else
        match shlexSplit (l.drop 4) with
        | none => none
        | some parts =>
          match parts with
          | p0 :: p1 :: p2 :: restp =>
            match goAtoi p1.toList with
            | none => none
            | some sec =>
              some { st with name := p0, sectionNum := sec, date := p2,
                             extra := String.intercalate " " restp }
          | _ => none
    -- `.Sh` / `.SH`: section header
    else if startsWithStr ['.', 'S', 'h'] l || startsWithStr ['.', 'S', 'H'] l then
      if l.length < 4 then none
      else
        let flushed := match st.current with
          | none => st.sections
          | some sec => st.sections ++ [sec]
        some { st with sections := flushed,
                       current := some ⟨String.mk (trimQuotes (l.drop 4)), []⟩ }
    else
      -- nameFull regex match: `.Nm name [arg]`
      match nameFullFind l with
      | some (w, v) =>
        let st := { st with savedName := if st.savedName = "" then String.mk w else st.savedName }
        match addSpans st [.text .nameRef (String.mk w) false] with
        | none => none
        | some st2 =>
          if v ≠ [] then addSpans st2 [.text .plain (String.mk v) false] else some st2
      | none =>
      -- bare `.Nm`: reads currentSection.Name (nil dereference when no section)
      if l = ['.', 'N', 'm'] then
        match st.current with
        | none => none
        | some sec =>
          let st2 := if sec.Name = "SYNOPSIS"
            then addSpans st [.text .plain "\n" true]
            else some st
          match st2 with
          | none => none
          | some st2 => addSpans st2 [.text .nameRef st.savedName false]
      -- `.Nd`: page description
      else if startsWithStr ['.', 'N', 'd'] l then
        if l.length < 4 then none
        else addSpans st [.text .plain (String.mk ("– ".toList ++ l.drop 4)) false]
      -- `.In`: #include
      else if startsWithStr ['.', 'I', 'n'] l then
        if l.length < 4 then none
        else
          addSpans st
            [.text .plain (String.mk ("#include <".toList ++ l.drop 4 ++ ['>'])) false]
      else
        -- xr regex match: man reference.  `len(parts) > 3` always holds for
        -- FindStringSubmatchIndex, so an absent section group makes the code
        -- slice `line[-1:-1]` — a runtime panic.
        match xrFind l with
        | some (w, dopt) =>
          match dopt with
          | none => none
          | some d => addSpans st [.xref (String.mk w) (some (Int.ofNat (digitsVal d)))]
        | none =>
        -- `.Ss` / `.SS`: subsection header
        if startsWithStr ['.', 'S', 's'] l || startsWithStr ['.', 'S', 'S'] l then
          if l.length < 4 then none
          else addSpans st [.text .subsectionHeader (String.mk (l.drop 4)) true]
        -- `.Dl`: indented literal
        else if startsWithStr ['.', 'D', 'l'] l then
          if l.length < 4 then none
          else
            match addSpans st [.text .plain "\t" false] with
            | none => none
            | some st2 => addParsed n st2 [] (l.drop 4)
        -- `.IP`: indented paragraph
        else if startsWithStr ['.', 'I', 'P'] l then
          let tagIndent : Option (List Char × Int) :=
            if l.length > 3 then
              match nextToken (l.drop 4) with
              | none => none
              | some (arg1, rest) =>
                let tag := if arg1 = "\\(bu".toList then "•".toList
                  else if arg1 = "\\(em".toList then "—".toList
                  else arg1
                match nextToken rest with
                | none => none
                | some (arg2, _) =>
                  if arg2 ≠ [] then
                    match goAtoi arg2 with
                    | none => none
                    | some iv => some (tag, iv)
                  else some (tag, 0)
            else some ([], 0)
          match tagIndent with
          | none => none
          | some (tag, ind) =>
            -- `strings.Repeat("  ", indent)` panics on a negative count
            if ind < 0 then none
            else
              addSpans st
                [.text .plain
                  (String.mk ('\n' :: (List.replicate ind.toNat "  ".toList).flatten ++ tag))
                  false]
        -- `.TP`
        else if startsWithStr ['.', 'T', 'P'] l then
          addSpans st [.text .plain "\n" false]
        -- `.ft`: font, not supported
        else if startsWithStr ['.', 'f', 't'] l then
          some st
        -- `.Bl`: begin list
        else if startsWithStr ['.', 'B', 'l'] l then
          if l.length < 4 then none
          else
            match shlexSplit (l.drop 4) with
            | none => none
            | some args =>
              match parseBl args with
              | none => none
              | some newList => some { st with lists := newList :: st.lists }
        -- `.It`: list item — `lists.Peek()` on an empty stack indexes
        -- `items[-1]`, a runtime panic
        else if startsWithStr ['.', 'I', 't'] l then
          let tagged : Option (List Span × FontSt) :=
            if l.length > 4 then parseLineF n st.fonts (l.drop 4)
            else some ([], st.fonts)
          match tagged with
          | none => none
          | some (tg, fs2) =>
            match st.lists with
            | [] => none
            | top :: stk =>
              match top with
              | .mk t items c w i cols =>
                some { st with fonts := fs2,
                               lists := .mk t (items ++ [.mk tg []]) c w i cols :: stk }
        -- `.El`: end list — `lists.Pop()` on an empty stack panics
        else if startsWithStr ['.', 'E', 'l'] l then
          match st.lists with
          | [] => none
          | top :: stk => addSpans { st with lists := stk } [.listSpan top]
        -- `.Os`
        else if startsWithStr ['.', 'O', 's'] l then
          some st
        else if l = ['.', 'P', 'p'] || l = ['.', 'P', 'P'] then
          addSpans st [.text .plain "\n\n" false]
        else if l = ['.', 'b', 'r'] then
          addSpans st [.text .plain "\n" false]
        else if l = ['.', 'n', 'a'] then
          some st
        else if l = ['.', 'n', 'h'] then
          some st
        else if startsWithStr ['.', 'n', 'r'] l then
          some st
        else if l = ['.'] || l = [] then
          some st
        else if startsWithStr ['.'] l then
          addParsed n st [] (l.drop 1)
        else
          addParsed n st [] l

/-- `parser.parseMdoc` with fuel for the `parseLine` calls: fold the line
classifier over the input lines, then flush the in-progress section —
`page.Sections = append(page.Sections, *currentSection)` dereferences the
nil `currentSection` pointer (a runtime panic) when no section header ever
appeared. -/
def initBuildState : BuildState :=
  { name := "", sectionNum := 0, date := "", extra := "", sections := [],
    current := none, savedName := "", lists := [], fonts := fonts0 }

def parseMdocF (n : Nat) (doc : String) : Option ManPage :=
  match (splitLines doc.toList).foldlM (fun st l => processLine n st l) initBuildState with
  | none => none
  | some st =>
    match st.current with
    | none => none
    | some sec =>
      some { Name := st.name, Section := st.sectionNum, Date := st.date,
             Sections := st.sections ++ [sec], Extra := st.extra }

example : parseMdocF 20 "" = none := by rfl

example :
    (parseMdocF 20 ".Sh NAME").map (fun p => p.Sections.map DocSection.Name) =
      some ["NAME"] := by rfl

/-! ## Span merge pass

`mergeSpans` is exercised by `TestMerge` / `TestMergeSpansParagraphs` and
called from `main`, but its definition is not among the provided sources.
It is modelled from the spec (the §4.4 accumulator scan, together with the
§8 paragraph-break example, which shows that a pure-whitespace text span is
kept as its own span — flushing the accumulator — and comes out with its
NoSpace flag set). -/

/-- Text with no non-whitespace character (the renderer's `^\s+$`
separator class, extended to the empty text): such spans act as separators
(paragraph breaks, line breaks) and are never folded into an accumulator —
nor chosen as one, which is what makes the pass idempotent. -/
def isWS (x : String) : Bool :=
  x.data.all isSpaceRe

mutual
/-- Modelled from the spec: the forward scan of `mergeSpans` over one span
sequence, in its accumulator-holding state — "maintains an accumulator text
span; each subsequent text span with the same StyleTag and NoSpace flag is
folded into the accumulator by concatenating text (joined with a single
separator unless NoSpace), otherwise the accumulator flushes and the new
span starts a fresh run (or passes through unchanged if it is non-text)";
a pure-whitespace text span flushes the accumulator and is emitted on its
own with NoSpace set (§8 paragraph-break example). -/
def scanAux (t : TextTag) (x : String) (ns : Bool) : List Span → List Span
  | [] => [.text t x ns]
  | .text t2 x2 ns2 :: rest =>
    if isWS x2 then
      .text t x ns :: .text t2 x2 true :: mergeScan rest
    else if t2 = t ∧ ns2 = ns then
      scanAux t (x ++ (if ns then "" else " ") ++ x2) ns rest
    else
      .text t x ns :: scanAux t2 x2 ns2 rest
  | s :: rest => .text t x ns :: s :: mergeScan rest

/-- Modelled from the spec: the single forward scan of `mergeSpans` over
one span sequence (§4.4, §8). -/
def mergeScan : List Span → List Span
  | [] => []
  | .text t x ns :: rest =>
    if isWS x then .text t x true :: mergeScan rest
    else scanAux t x ns rest
  | s :: rest => s :: mergeScan rest
end

mutual
/-- Modelled from the spec: `mergeSpans` runs "per section/list-item span
sequence", so the pass descends into nested lists to reach every list-item
tag and body sequence; all other spans are left as they are. -/
def mergeTree : Span → Span
  | .listSpan (.mk t items c w i cols) => .listSpan (.mk t (mergeItems items) c w i cols)
  | s => s

def mergeItems : List ListItem → List ListItem
  | [] => []
  | .mk tg ct :: rest =>
    .mk (mergeScan (mapTree tg)) (mergeScan (mapTree ct)) :: mergeItems rest

def mapTree : List Span → List Span
  | [] => []
  | s :: rest => mergeTree s :: mapTree rest
end

/-- Modelled from the spec: the merge pass on one span sequence. -/
def mergeList (l : List Span) : List Span :=
  mergeScan (mapTree l)

/-- Modelled from the spec: `manPage.mergeSpans`, applied to every
section's span sequence. -/
def mergeSpans (p : ManPage) : ManPage :=
  { p with Sections := p.Sections.map (fun s => ⟨s.Name, mergeList s.Contents⟩) }

-- the `TestMerge` example from doc_test.go
example :
    mergeList
      [.text .plain "hello" false, .text .plain "world" false,
       .text .plain "man" false, .text .bold "bold" false] =
      [.text .plain "hello world man" false, .text .bold "bold" false] := by rfl

-- the `TestMergeSpansParagraphs` example from doc_test.go, end to end:
-- parse the four-line document, merge, and compare the DESCRIPTION
-- section's spans with the test's expectation
example :
    (parseMdocF 20 ".Sh DESCRIPTION\nFirst paragraph.\n.Pp\nSecond paragraph.").map
        (fun p => (mergeSpans p).Sections.map DocSection.Contents) =
      some [[.text .plain "First paragraph." false,
             .text .plain "\n\n" true,
             .text .plain "Second paragraph." false]] := by rfl

/-! ## Renderer: `list.RenderTable` (render.go lines 291-332) -/

/-- The `columns` slice built from `l.Columns` (render.go lines 295-310):
each column is `len(col)+3` wide, except the last, which absorbs the
remaining width (possibly negative, hence `Int`). -/
def computeColumnsAux (width : Int) (used : Int) : List String → List (String × Int)
  | [] => []
  | [c] => [(c, width - used - 4)]
  | c :: c2 :: rest =>
    (c, (c.length : Int) + 3) ::
      computeColumnsAux width (used + ((c.length : Int) + 3)) (c2 :: rest)

def computeColumns (width : Int) (cols : List String) : List (String × Int) :=
  computeColumnsAux width 0 cols

/-- The row-building loop of `RenderTable` (render.go lines 314-332) for one
item: cells split at `tagTableCellSeparator` spans, excess spans beyond the
declared column count dropped (`break`), and a final non-empty accumulated
cell appended.  `render` stands for the dynamically dispatched
`span.Render(width)` of the remaining span kinds (externally styled
output); its result never affects the cell count. -/
def buildRowAux (render : Span → Int → String) (cols : List (String × Int))
    (row : List String) (cell : String) : List Span → List String
  | [] => if cell.length > 0 then row ++ [cell] else row
  | s :: rest =>
    if cols.length ≤ row.length then
      -- `break` out of the loop, then the trailing `if len(cell) > 0` check
      if cell.length > 0 then row ++ [cell] else row
    else
      match s with
      | .text .tableCellSeparator _ _ => buildRowAux render cols (row ++ [cell]) "" rest
      | _ =>
        buildRowAux render cols row
          (cell ++ render s (((cols.get? row.length).map Prod.snd).getD 0)) rest

def buildRow (render : Span → Int → String) (cols : List (String × Int))
    (tagSpans : List Span) : List String :=
  buildRowAux render cols [] "" tagSpans

/-- All rows of `RenderTable` for a column list. -/
def renderTableRows (render : Span → Int → String) (width : Int) (l : ListVal) :
    List (List String) :=
  l.items.map (fun it => buildRow render (computeColumns width l.columns) it.tag)

/-! ## Merge-pass lemmas -/

/-- Whether a span is a text span (the only mergeable kind). -/
def isText : Span → Bool
  | .text _ _ _ => true
  | _ => false

/-- Two adjacent spans would be folded by the scan: both text, neither a
whitespace separator, same tag, same NoSpace flag. -/
def mergeable : Span → Span → Bool
  | .text t1 x1 ns1, .text t2 x2 ns2 =>
    !isWS x1 && !isWS x2 && (t1 = t2 && ns1 = ns2)
  | _, _ => false

/-- A whitespace-separator text span must carry the NoSpace flag. -/
def wsFlagOk : Span → Bool
  | .text _ x ns => !isWS x || ns
  | _ => true

def pairOk (a : Span) : List Span → Bool
  | [] => true
  | b :: _ => !mergeable a b

/-- The merged-sequence invariant: every whitespace separator carries
NoSpace, and no adjacent pair would still fold. -/
def Merged : List Span → Bool
  | [] => true
  | a :: rest => wsFlagOk a && pairOk a rest && Merged rest

theorem merged_tail (a : Span) (m : List Span) (h : Merged (a :: m) = true) :
    Merged m = true := by
  simp only [Merged, Bool.and_eq_true] at h
  exact h.2

theorem merged_head_flag (a : Span) (m : List Span) (h : Merged (a :: m) = true) :
    wsFlagOk a = true := by
  simp only [Merged, Bool.and_eq_true] at h
  exact h.1.1

theorem merged_head_pair (a : Span) (m : List Span) (h : Merged (a :: m) = true) :
    pairOk a m = true := by
  simp only [Merged, Bool.and_eq_true] at h
  exact h.1.2

theorem isText_cases (s : Span) :
    (∃ t x ns, s = .text t x ns) ∨ isText s = false := by
  cases s with
  | text t x ns => exact Or.inl ⟨t, x, ns, rfl⟩
  | flag f d ns => exact Or.inr rfl
  | xref a b => exact Or.inr rfl
  | decorated a b => exact Or.inr rfl
  | listSpan a => exact Or.inr rfl

theorem mergeable_not_text_left (s b : Span) (h : isText s = false) :
    mergeable s b = false := by
  cases s <;> cases b <;> simp_all [isText, mergeable]

theorem mergeable_not_text_right (s b : Span) (h : isText b = false) :
    mergeable s b = false := by
  cases s <;> cases b <;> simp_all [isText, mergeable]

theorem mergeable_ws_left (t : TextTag) (x : String) (ns : Bool) (b : Span)
    (h : isWS x = true) : mergeable (.text t x ns) b = false := by
  cases b <;> simp [mergeable, h]

theorem mergeable_ws_right (a : Span) (t : TextTag) (x : String) (ns : Bool)
    (h : isWS x = true) : mergeable a (.text t x ns) = false := by
  cases a <;> simp [mergeable, h]

theorem pairOk_not_text (a : Span) (m : List Span) (h : isText a = false) :
    pairOk a m = true := by
  cases m with
  | nil => rfl
  | cons b bs => simp [pairOk, mergeable_not_text_left a b h]

theorem pairOk_ws (t : TextTag) (x : String) (ns : Bool) (m : List Span)
    (h : isWS x = true) : pairOk (.text t x ns) m = true := by
  cases m with
  | nil => rfl
  | cons b bs => simp [pairOk, mergeable_ws_left t x ns b h]

theorem isWS_append (x y : String) (h : isWS x = false) : isWS (x ++ y) = false := by
  simp only [isWS, String.data_append, List.all_append, Bool.and_eq_false_iff]
  exact Or.inl h

theorem mergeTree_not_text (s : Span) (h : isText s = false) :
    isText (mergeTree s) = false := by
  cases s with
  | text t x ns => simp [isText] at h
  | flag f d ns => simp [mergeTree, isText]
  | xref a b => simp [mergeTree, isText]
  | decorated a b => simp [mergeTree, isText]
  | listSpan lv => cases lv with | mk a b c d e f => simp [mergeTree, isText]

theorem mergeTree_text (t : TextTag) (x : String) (ns : Bool) :
    mergeTree (.text t x ns) = .text t x ns := by
  simp [mergeTree]

theorem mergeScan_cons_not_text (s : Span) (rest : List Span) (h : isText s = false) :
    mergeScan (s :: rest) = s :: mergeScan rest := by
  cases s with
  | text t x ns => simp [isText] at h
  | flag f d ns => simp [mergeScan]
  | xref a b => simp [mergeScan]
  | decorated a b => simp [mergeScan]
  | listSpan a => simp [mergeScan]

theorem scanAux_cons_not_text (t : TextTag) (x : String) (ns : Bool) (s : Span)
    (rest : List Span) (h : isText s = false) :
    scanAux t x ns (s :: rest) = .text t x ns :: s :: mergeScan rest := by
  cases s with
  | text t2 x2 ns2 => simp [isText] at h
  | flag f d ns2 => simp [scanAux]
  | xref a b => simp [scanAux]
  | decorated a b => simp [scanAux]
  | listSpan a => simp [scanAux]

theorem mergeScan_cons_text_ws (t : TextTag) (x : String) (ns : Bool)
    (rest : List Span) (h : isWS x = true) :
    mergeScan (.text t x ns :: rest) = .text t x true :: mergeScan rest := by
  simp [mergeScan, h]

theorem mergeScan_cons_text_nws (t : TextTag) (x : String) (ns : Bool)
    (rest : List Span) (h : isWS x = false) :
    mergeScan (.text t x ns :: rest) = scanAux t x ns rest := by
  simp [mergeScan, h]

theorem scanAux_cons_text_ws (t t2 : TextTag) (x x2 : String) (ns ns2 : Bool)
    (rest : List Span) (h : isWS x2 = true) :
    scanAux t x ns (.text t2 x2 ns2 :: rest) =
      .text t x ns :: .text t2 x2 true :: mergeScan rest := by
  simp [scanAux, h]

theorem scanAux_cons_text_pos (t t2 : TextTag) (x x2 : String) (ns ns2 : Bool)
    (rest : List Span) (hws : isWS x2 = false) (h : t2 = t ∧ ns2 = ns) :
    scanAux t x ns (.text t2 x2 ns2 :: rest) =
      scanAux t (x ++ (if ns then "" else " ") ++ x2) ns rest := by
  simp [scanAux, hws, h]

theorem scanAux_cons_text_neg (t t2 : TextTag) (x x2 : String) (ns ns2 : Bool)
    (rest : List Span) (hws : isWS x2 = false) (h : ¬(t2 = t ∧ ns2 = ns)) :
    scanAux t x ns (.text t2 x2 ns2 :: rest) =
      .text t x ns :: scanAux t2 x2 ns2 rest := by
  simp [scanAux, hws, h]

/-- Head shape of the scan: the accumulator's tag and NoSpace flag survive
at the head of the output. -/
theorem scanAux_head (l : List Span) :
    ∀ (t : TextTag) (x : String) (ns : Bool),
      ∃ y rest2, scanAux t x ns l = .text t y ns :: rest2 := by
  induction l with
  | nil => intro t x ns; exact ⟨x, [], rfl⟩
  | cons s rest ih =>
    intro t x ns
    rcases isText_cases s with ⟨t2, x2, ns2, rfl⟩ | hnt
    · by_cases hws : isWS x2 = true
      · exact ⟨x, _, scanAux_cons_text_ws t t2 x x2 ns ns2 rest hws⟩
      · rw [Bool.not_eq_true] at hws
        by_cases h : t2 = t ∧ ns2 = ns
        · rw [scanAux_cons_text_pos t t2 x x2 ns ns2 rest hws h]
          exact ih ..
        · exact ⟨x, _, scanAux_cons_text_neg t t2 x x2 ns ns2 rest hws h⟩
    · exact ⟨x, _, scanAux_cons_not_text t x ns s rest hnt⟩

/-- The scan's output satisfies the merged-sequence invariant. -/
theorem mergeScan_merged (l : List Span) :
    Merged (mergeScan l) = true ∧
      ∀ (t : TextTag) (x : String) (ns : Bool), isWS x = false →
        Merged (scanAux t x ns l) = true := by
  induction l with
  | nil =>
    constructor
    · rfl
    · intro t x ns hx
      simp [scanAux, Merged, wsFlagOk, pairOk, hx]
  | cons s rest ih =>
    rcases isText_cases s with ⟨t2, x2, ns2, rfl⟩ | hnt
    · constructor
      · by_cases hws : isWS x2 = true
        · rw [mergeScan_cons_text_ws t2 x2 ns2 rest hws]
          simp only [Merged, Bool.and_eq_true]
          exact ⟨⟨by simp [wsFlagOk, hws], pairOk_ws t2 x2 true _ hws⟩, ih.1⟩
        · rw [Bool.not_eq_true] at hws
          rw [mergeScan_cons_text_nws t2 x2 ns2 rest hws]
          exact ih.2 t2 x2 ns2 hws
      · intro t x ns hx
        by_cases hws : isWS x2 = true
        · rw [scanAux_cons_text_ws t t2 x x2 ns ns2 rest hws]
          simp only [Merged, Bool.and_eq_true]
          refine ⟨⟨by simp [wsFlagOk, hx], by simp [pairOk, mergeable, hws]⟩,
            ⟨by simp [wsFlagOk, hws], pairOk_ws t2 x2 true _ hws⟩, ih.1⟩
        · rw [Bool.not_eq_true] at hws
          by_cases h : t2 = t ∧ ns2 = ns
          · rw [scanAux_cons_text_pos t t2 x x2 ns ns2 rest hws h]
            exact ih.2 t _ ns (isWS_append _ x2 (isWS_append x _ hx))
          · rw [scanAux_cons_text_neg t t2 x x2 ns ns2 rest hws h]
            simp only [Merged, Bool.and_eq_true]
            refine ⟨⟨by simp [wsFlagOk, hx], ?_⟩, ih.2 t2 x2 ns2 hws⟩
            obtain ⟨y, tail, hy⟩ := scanAux_head rest t2 x2 ns2
            rw [hy]
            simp only [pairOk, mergeable, Bool.not_eq_eq_eq_not, Bool.not_true,
              Bool.and_eq_false_iff]
            right
            simp only [Bool.and_eq_false_iff, decide_eq_false_iff_not]
            by_cases hteq : t = t2
            · exact Or.inr (fun hns => h ⟨hteq.symm, hns.symm⟩)
            · exact Or.inl hteq
    · constructor
      · rw [mergeScan_cons_not_text s rest hnt]
        simp only [Merged, Bool.and_eq_true]
        exact ⟨⟨by cases s <;> simp_all [isText, wsFlagOk], pairOk_not_text s _ hnt⟩, ih.1⟩
      · intro t x ns hx
        rw [scanAux_cons_not_text t x ns s rest hnt]
        simp only [Merged, Bool.and_eq_true]
        exact ⟨⟨by simp [wsFlagOk, hx],
                 by simp [pairOk, mergeable_not_text_right _ s hnt]⟩,
               ⟨by cases s <;> simp_all [isText, wsFlagOk], pairOk_not_text s _ hnt⟩,
               ih.1⟩

/-- The scan is the identity on sequences already satisfying the
invariant. -/
theorem mergeScan_of_merged (l : List Span) :
    (Merged l = true → mergeScan l = l) ∧
      ∀ (t : TextTag) (x : String) (ns : Bool), isWS x = false →
        Merged (.text t x ns :: l) = true → scanAux t x ns l = .text t x ns :: l := by
  induction l with
  | nil => exact ⟨fun _ => rfl, fun t x ns _ _ => rfl⟩
  | cons s rest ih =>
    rcases isText_cases s with ⟨t2, x2, ns2, rfl⟩ | hnt
    · constructor
      · intro h
        by_cases hws : isWS x2 = true
        · rw [mergeScan_cons_text_ws t2 x2 ns2 rest hws]
          have hns2 : ns2 = true := by
            have := merged_head_flag _ _ h
            simp [wsFlagOk, hws] at this
            exact this
          rw [ih.1 (merged_tail _ _ h), hns2]
        · rw [Bool.not_eq_true] at hws
          rw [mergeScan_cons_text_nws t2 x2 ns2 rest hws]
          exact ih.2 t2 x2 ns2 hws h
      · intro t x ns hx h
        by_cases hws : isWS x2 = true
        · rw [scanAux_cons_text_ws t t2 x x2 ns ns2 rest hws]
          have hns2 : ns2 = true := by
            have := merged_head_flag _ _ (merged_tail _ _ h)
            simp [wsFlagOk, hws] at this
            exact this
          rw [ih.1 (merged_tail _ _ (merged_tail _ _ h)), hns2]
        · rw [Bool.not_eq_true] at hws
          have hpair := merged_head_pair _ _ h
          have hne : ¬(t2 = t ∧ ns2 = ns) := by
            simp only [pairOk, mergeable, hx, hws, Bool.not_false, Bool.true_and,
              Bool.not_eq_eq_eq_not, Bool.not_true, Bool.and_eq_false_iff,
              decide_eq_false_iff_not] at hpair
            rintro ⟨hteq, hns⟩
            rcases hpair with hc | hc
            · exact hc hteq.symm
            · exact hc hns.symm
          rw [scanAux_cons_text_neg t t2 x x2 ns ns2 rest hws hne]
          rw [ih.2 t2 x2 ns2 hws (merged_tail _ _ h)]
    · constructor
      · intro h
        rw [mergeScan_cons_not_text s rest hnt]
        rw [ih.1 (merged_tail _ _ h)]
      · intro t x ns hx h
        rw [scanAux_cons_not_text t x ns s rest hnt]
        rw [ih.1 (merged_tail _ _ (merged_tail _ _ h))]

/-- The scan is idempotent. -/
theorem mergeScan_idem (l : List Span) : mergeScan (mergeScan l) = mergeScan l :=
  (mergeScan_of_merged (mergeScan l)).1 (mergeScan_merged l).1

theorem mapTree_nil : mapTree [] = [] := by simp [mapTree]

theorem mapTree_cons (s : Span) (rest : List Span) :
    mapTree (s :: rest) = mergeTree s :: mapTree rest := by
  simp [mapTree]

/-- Descending into nested lists commutes with the flat scan (the scan
only inspects text spans, which the descent leaves unchanged). -/
theorem mapTree_mergeScan_comm (l : List Span) :
    mapTree (mergeScan l) = mergeScan (mapTree l) ∧
      ∀ (t : TextTag) (x : String) (ns : Bool),
        mapTree (scanAux t x ns l) = scanAux t x ns (mapTree l) := by
  induction l with
  | nil =>
    refine ⟨by simp [mergeScan, mapTree], fun t x ns => ?_⟩
    rw [show scanAux t x ns [] = [Span.text t x ns] from rfl, mapTree_cons, mapTree_nil,
      mergeTree_text]
    rfl
  | cons s rest ih =>
    rcases isText_cases s with ⟨t2, x2, ns2, rfl⟩ | hnt
    · constructor
      · by_cases hws : isWS x2 = true
        · rw [mergeScan_cons_text_ws t2 x2 ns2 rest hws, mapTree_cons, mergeTree_text,
            mapTree_cons, mergeTree_text, ih.1,
            mergeScan_cons_text_ws t2 x2 ns2 (mapTree rest) hws]
        · rw [Bool.not_eq_true] at hws
          rw [mergeScan_cons_text_nws t2 x2 ns2 rest hws, ih.2, mapTree_cons,
            mergeTree_text, mergeScan_cons_text_nws t2 x2 ns2 (mapTree rest) hws]
      · intro t x ns
        by_cases hws : isWS x2 = true
        · rw [scanAux_cons_text_ws t t2 x x2 ns ns2 rest hws, mapTree_cons, mergeTree_text,
            mapTree_cons, mergeTree_text, ih.1, mapTree_cons, mergeTree_text,
            scanAux_cons_text_ws t t2 x x2 ns ns2 (mapTree rest) hws]
        · rw [Bool.not_eq_true] at hws
          by_cases h : t2 = t ∧ ns2 = ns
          · rw [scanAux_cons_text_pos t t2 x x2 ns ns2 rest hws h, ih.2, mapTree_cons,
              mergeTree_text, scanAux_cons_text_pos t t2 x x2 ns ns2 (mapTree rest) hws h]
          · rw [scanAux_cons_text_neg t t2 x x2 ns ns2 rest hws h, mapTree_cons,
              mergeTree_text, ih.2, mapTree_cons, mergeTree_text,
              scanAux_cons_text_neg t t2 x x2 ns ns2 (mapTree rest) hws h]
    · have hnt2 : isText (mergeTree s) = false := mergeTree_not_text s hnt
      constructor
      · rw [mergeScan_cons_not_text s rest hnt, mapTree_cons, ih.1, mapTree_cons,
          mergeScan_cons_not_text _ _ hnt2]
      · intro t x ns
        rw [scanAux_cons_not_text t x ns s rest hnt, mapTree_cons, mergeTree_text,
          mapTree_cons, ih.1, mapTree_cons,
          scanAux_cons_not_text t x ns _ _ hnt2]

mutual
theorem mergeTree_idem (s : Span) : mergeTree (mergeTree s) = mergeTree s := by
  cases s with
  | text t x ns => simp [mergeTree]
  | flag f d ns => simp [mergeTree]
  | xref a b => simp [mergeTree]
  | decorated a b => simp [mergeTree]
  | listSpan lv =>
    cases lv with
    | mk t items c w i cols =>
      simp only [mergeTree]
      rw [mergeItems_idem items]

theorem mergeItems_idem (items : List ListItem) :
    mergeItems (mergeItems items) = mergeItems items := by
  cases items with
  | nil => simp [mergeItems]
  | cons it rest =>
    cases it with
    | mk tg ct =>
      simp only [mergeItems]
      rw [(mapTree_mergeScan_comm (mapTree tg)).1, mergeScan_idem, mapTree_idem tg,
        (mapTree_mergeScan_comm (mapTree ct)).1, mergeScan_idem, mapTree_idem ct,
        mergeItems_idem rest]

theorem mapTree_idem (l : List Span) : mapTree (mapTree l) = mapTree l := by
  cases l with
  | nil => simp [mapTree]
  | cons s rest =>
    rw [mapTree_cons, mapTree_cons, mergeTree_idem s, mapTree_idem rest]
end

/-- The merge pass on one span sequence is idempotent. -/
theorem mergeList_idem (l : List Span) : mergeList (mergeList l) = mergeList l := by
  unfold mergeList
  rw [(mapTree_mergeScan_comm (mapTree l)).1, mergeScan_idem, mapTree_idem]

/-! ## Row-count invariant of the table renderer -/

theorem computeColumnsAux_length (width : Int) (cols : List String) :
    ∀ used, (computeColumnsAux width used cols).length = cols.length := by
  induction cols with
  | nil => intro used; rfl
  | cons c rest ih =>
    intro used
    cases rest with
    | nil => rfl
    | cons c2 rest2 => simpa [computeColumnsAux] using ih _

theorem computeColumns_length (width : Int) (cols : List String) :
    (computeColumns width cols).length = cols.length :=
  computeColumnsAux_length width cols 0

/-- Loop invariant of `RenderTable`'s row building: the row never exceeds
the declared column count, and a full row forces an empty accumulator. -/
theorem buildRowAux_length (render : Span → Int → String) (cols : List (String × Int)) :
    ∀ (spans : List Span) (row : List String) (cell : String),
      row.length ≤ cols.length → (row.length = cols.length → cell = "") →
      (buildRowAux render cols row cell spans).length ≤ cols.length := by
  intro spans
  induction spans with
  | nil =>
    intro row cell hlen hfull
    simp only [buildRowAux]
    by_cases hc : cell.length > 0
    · rw [if_pos hc]
      rcases Nat.lt_or_ge row.length cols.length with hlt | hge
      · simpa using hlt
      · have heq : row.length = cols.length := Nat.le_antisymm hlen hge
        have : cell = "" := hfull heq
        subst this
        simp at hc
    · rw [if_neg hc]
      exact hlen
  | cons s rest ih =>
    intro row cell hlen hfull
    simp only [buildRowAux]
    by_cases hbreak : cols.length ≤ row.length
    · rw [if_pos hbreak]
      by_cases hc : cell.length > 0
      · rw [if_pos hc]
        have heq : row.length = cols.length := Nat.le_antisymm hlen hbreak
        have : cell = "" := hfull heq
        subst this
        simp at hc
      · rw [if_neg hc]
        exact hlen
    · rw [if_neg hbreak]
      have hlt : row.length < cols.length := Nat.lt_of_not_le hbreak
      cases s with
      | text typ x ns =>
        cases typ with
        | tableCellSeparator =>
          exact ih (row ++ [cell]) "" (by simpa using hlt) (fun _ => rfl)
        | plain => exact ih row _ hlen (fun h => absurd h (Nat.ne_of_lt hlt))
        | nameRef => exact ih row _ hlen (fun h => absurd h (Nat.ne_of_lt hlt))
        | arg => exact ih row _ hlen (fun h => absurd h (Nat.ne_of_lt hlt))
        | envVar => exact ih row _ hlen (fun h => absurd h (Nat.ne_of_lt hlt))
        | var => exact ih row _ hlen (fun h => absurd h (Nat.ne_of_lt hlt))
        | path => exact ih row _ hlen (fun h => absurd h (Nat.ne_of_lt hlt))
        | subsectionHeader => exact ih row _ hlen (fun h => absurd h (Nat.ne_of_lt hlt))
        | literal => exact ih row _ hlen (fun h => absurd h (Nat.ne_of_lt hlt))
        | symbolic => exact ih row _ hlen (fun h => absurd h (Nat.ne_of_lt hlt))
        | standard => exact ih row _ hlen (fun h => absurd h (Nat.ne_of_lt hlt))
        | bold => exact ih row _ hlen (fun h => absurd h (Nat.ne_of_lt hlt))
        | italic => exact ih row _ hlen (fun h => absurd h (Nat.ne_of_lt hlt))
        | singleQuote => exact ih row _ hlen (fun h => absurd h (Nat.ne_of_lt hlt))
        | doubleQuote => exact ih row _ hlen (fun h => absurd h (Nat.ne_of_lt hlt))
        | underline => exact ih row _ hlen (fun h => absurd h (Nat.ne_of_lt hlt))
      | flag f d ns => exact ih row _ hlen (fun h => absurd h (Nat.ne_of_lt hlt))
      | xref a b => exact ih row _ hlen (fun h => absurd h (Nat.ne_of_lt hlt))
      | decorated a b => exact ih row _ hlen (fun h => absurd h (Nat.ne_of_lt hlt))
      | listSpan a => exact ih row _ hlen (fun h => absurd h (Nat.ne_of_lt hlt))

theorem buildRow_length (render : Span → Int → String) (cols : List (String × Int))
    (tagSpans : List Span) : (buildRow render cols tagSpans).length ≤ cols.length :=
  buildRowAux_length render cols tagSpans [] "" (Nat.zero_le _) (by intro h; rfl)

/-! ## Tokenizer lemmas -/

/-- On quote- and backslash-free input the scan appends the longest
space-free prefix to the accumulated token and returns the rest after one
delimiter space. -/
theorem nextTokenAux_plain (l : List Char) :
    ∀ (acc : List Char) (first : Bool),
      (∀ c ∈ l, c ≠ '"' ∧ c ≠ '\\') →
      nextTokenAux first false acc l =
        some (acc ++ l.takeWhile (· ≠ ' '), (l.dropWhile (· ≠ ' ')).tail) := by
  induction l with
  | nil => intro acc first _; simp [nextTokenAux]
  | cons c rest ih =>
    intro acc first h
    have hc := h c (List.mem_cons_self c rest)
    have hrest : ∀ c ∈ rest, c ≠ '"' ∧ c ≠ '\\' :=
      fun d hd => h d (List.mem_cons_of_mem c hd)
    by_cases hsp : c = ' '
    · subst hsp
      simp [nextTokenAux, hc.1, hc.2, List.takeWhile, List.dropWhile]
    · rw [show nextTokenAux first false acc (c :: rest) =
          nextTokenAux false false (acc ++ [c]) rest from by
            simp [nextTokenAux, hc.1, hc.2, hsp]]
      rw [ih (acc ++ [c]) false hrest]
      simp [List.takeWhile_cons, List.dropWhile_cons, hsp]

/-- Any space- and backslash-free prefix followed by a final backslash
drives the scan into the out-of-range lookahead `input[i+1]`. -/
theorem nextTokenAux_trailing_backslash (t : List Char) :
    ∀ (acc : List Char) (first inQuote : Bool),
      (∀ c ∈ t, c ≠ ' ' ∧ c ≠ '\\') →
      nextTokenAux first inQuote acc (t ++ ['\\']) = none := by
  induction t with
  | nil => intro acc first inQuote _; simp [nextTokenAux]
  | cons c rest ih =>
    intro acc first inQuote h
    have hc := h c (List.mem_cons_self c rest)
    have hrest : ∀ d ∈ rest, d ≠ ' ' ∧ d ≠ '\\' :=
      fun d hd => h d (List.mem_cons_of_mem c hd)
    rw [List.cons_append]
    by_cases hq : c = '"'
    · subst hq
      rw [show nextTokenAux first inQuote acc ('"' :: (rest ++ ['\\'])) =
          nextTokenAux false (!inQuote) acc (rest ++ ['\\']) from by
            simp [nextTokenAux]]
      exact ih acc false (!inQuote) hrest
    · rw [show nextTokenAux first inQuote acc (c :: (rest ++ ['\\'])) =
          nextTokenAux false inQuote (acc ++ [c]) (rest ++ ['\\']) from by
            simp [nextTokenAux, hc.1, hc.2, hq]]
      exact ih (acc ++ [c]) false inQuote hrest

/-- The `first` flag is only consulted under a leading backslash. -/
theorem nextTokenAux_first_irrel (d : Char) (v : List Char) (acc : List Char)
    (q : Bool) (hd : d ≠ '\\') :
    nextTokenAux true q acc (d :: v) = nextTokenAux false q acc (d :: v) := by
  simp only [nextTokenAux, hd, if_false]

/-- Scanning a space-, quote- and backslash-free prefix accumulates it and
continues on the suffix. -/
theorem nextTokenAux_plain_chunk (u : List Char) :
    ∀ (acc : List Char) (suffix : List Char),
      (∀ c ∈ u, c ≠ ' ' ∧ c ≠ '"' ∧ c ≠ '\\') →
      nextTokenAux false false acc (u ++ suffix) =
        nextTokenAux false false (acc ++ u) suffix := by
  induction u with
  | nil => intro acc suffix _; simp
  | cons c rest ih =>
    intro acc suffix h
    have hc := h c (List.mem_cons_self c rest)
    have hrest : ∀ d ∈ rest, d ≠ ' ' ∧ d ≠ '"' ∧ d ≠ '\\' :=
      fun d hd => h d (List.mem_cons_of_mem c hd)
    rw [List.cons_append]
    rw [show nextTokenAux false false acc (c :: (rest ++ suffix)) =
        nextTokenAux false false (acc ++ [c]) (rest ++ suffix) from by
          simp [nextTokenAux, hc.1, hc.2.1, hc.2.2]]
    rw [ih (acc ++ [c]) suffix hrest]
    simp

/-- Skipping a dropped backslash (next char is not `f`). -/
theorem nextTokenAux_drop_backslash (d : Char) (v : List Char) (acc : List Char)
    (first : Bool) (hdf : d ≠ 'f') :
    nextTokenAux first false acc ('\\' :: d :: v) = nextTokenAux false false acc (d :: v) := by
  simp [nextTokenAux, hdf]

/-! # Claims -/

/-! ## C1 -/

/-- C1, counterexample: the claim says the in-progress section is flushed
at end of input for *every* input, including inputs with only ignored lines
or no section header, so every such parse yields a Document with ≥ 1
Section.  In fact `parseMdoc` ends with
`page.Sections = append(page.Sections, *currentSection)`, and when no
section-header line ever appeared `currentSection` is still `nil`, so the
final flush dereferences a nil pointer and panics: no Document is produced
at all for the empty input or for a comment-only input. -/
theorem C1_counterexample :
    parseMdocF 100 "" = none ∧ parseMdocF 100 ".\\\" a comment" = none := by
  constructor
  · rfl
  · rfl

/-- C1, amended: on every input on which `parseMdoc` returns at all (its
final flush did not hit a nil `currentSection`), the in-progress section is
appended at end of input and the resulting Document has at least one
Section; inputs with no section-header line (e.g. all-comment or empty
inputs) instead panic at the final flush. -/
theorem C1_flush_section_count (n : Nat) (doc : String) (page : ManPage)
    (h : parseMdocF n doc = some page) : 1 ≤ page.Sections.length := by
  unfold parseMdocF at h
  split at h
  · exact absurd h (by simp)
  · split at h
    · exact absurd h (by simp)
    · simp only [Option.some.injEq] at h
      subst h
      simp

/-- C1 witness: a one-line input with a section header. -/
theorem C1_witness :
    1 ≤ (ManPage.mk "" 0 "" [⟨"NAME", []⟩] "").Sections.length :=
  C1_flush_section_count 5 ".Sh NAME" (ManPage.mk "" 0 "" [⟨"NAME", []⟩] "") (by rfl)

/-! ## C2 -/

/-- C2: the span merge pass is idempotent — `merge(merge(D)) == merge(D)`
for every document, on every section and (recursively) list-item span
sequence.  (`mergeSpans` itself is not among the provided sources; it is
modelled from spec §4.4.) -/
theorem C2_merge_idempotent (p : ManPage) : mergeSpans (mergeSpans p) = mergeSpans p := by
  cases p with
  | mk nm sec date secs extra =>
    simp only [mergeSpans, List.map_map]
    congr 1
    apply List.map_congr_left
    intro s _
    simp only [Function.comp]
    rw [mergeList_idem]

/-! ## C3 -/

/-- C3, counterexample: the claim says the remainder returned by the
tokenizer always has its leading spaces already skipped.  On `"a  b"` (two
spaces) the token ends at the first space and the remainder is everything
after that single delimiter — `" b"`, which still starts with a space
(the claim would require `"b"`). -/
theorem C3_counterexample :
    nextTokenS "a  b" = some ("a", " b") ∧ (" b" : String) ≠ "b" := by
  constructor
  · rfl
  · decide

/-- C3, amended: on quote- and backslash-free input the token is the
longest space-free prefix (it ends at the first whitespace) and the
remainder is the input after that one delimiter space only — further
leading spaces are *not* skipped; empty input yields `("", "")` (the case
`l = []`). -/
theorem C3_token_and_remainder (l : List Char)
    (h : ∀ c ∈ l, c ≠ '"' ∧ c ≠ '\\') :
    nextToken l = some (l.takeWhile (· ≠ ' '), (l.dropWhile (· ≠ ' ')).tail) := by
  have := nextTokenAux_plain l [] true h
  simpa [nextToken] using this

/-- C3 witness. -/
theorem C3_witness :
    nextToken "a  b".toList =
      some ("a  b".toList.takeWhile (· ≠ ' '),
            ("a  b".toList.dropWhile (· ≠ ' ')).tail) :=
  C3_token_and_remainder "a  b".toList (by decide)

/-! ## C4 -/

/-- C4, counterexample: the claim says that for every input a leading
`\f` escape is returned immediately as its own exactly-3-character token.
On the 2-character input `"\f"` the code instead slices `input[:3]` /
`input[3:]` past the end of the string and panics. -/
theorem C4_counterexample : nextTokenS "\\f" = none := by rfl

/-- C4, amended: when the font escape's selector character is present,
(i) a `\f` escape at the very start of input is returned immediately as
its own 3-character token; (ii) in the middle of a token, the current token
is ended early and the escape starts the remainder, so it becomes the next
token on a subsequent call (no token is split across the boundary); and
(iii) a backslash outside quotes not followed by `f` is dropped.  A
truncated escape (`\f` at end of input) panics instead. -/
theorem C4_font_escape_tokens :
    (∀ (x : Char) (rest : List Char),
        nextToken ('\\' :: 'f' :: x :: rest) = some (['\\', 'f', x], rest))
    ∧ (∀ (t : List Char) (x : Char) (rest : List Char),
        t ≠ [] → (∀ c ∈ t, c ≠ ' ' ∧ c ≠ '"' ∧ c ≠ '\\') →
        nextToken (t ++ '\\' :: 'f' :: x :: rest) = some (t, '\\' :: 'f' :: x :: rest)
          ∧ nextToken ('\\' :: 'f' :: x :: rest) = some (['\\', 'f', x], rest))
    ∧ (∀ (u : List Char) (d : Char) (v : List Char),
        (∀ c ∈ u, c ≠ ' ' ∧ c ≠ '"' ∧ c ≠ '\\') → d ≠ 'f' → d ≠ '\\' →
        nextToken (u ++ '\\' :: d :: v) = nextToken (u ++ d :: v)) := by
  refine ⟨?imm, ?mid, ?drop⟩
  case imm =>
    intro x rest
    simp [nextToken, nextTokenAux]
  case mid =>
    intro t x rest hne h
    refine ⟨?_, by simp [nextToken, nextTokenAux]⟩
    cases t with
    | nil => exact absurd rfl hne
    | cons c t2 =>
      have hc := h c (List.mem_cons_self c t2)
      have ht2 : ∀ d ∈ t2, d ≠ ' ' ∧ d ≠ '"' ∧ d ≠ '\\' :=
        fun d hd => h d (List.mem_cons_of_mem c hd)
      rw [List.cons_append]
      rw [show nextToken (c :: (t2 ++ '\\' :: 'f' :: x :: rest)) =
          nextTokenAux false false [c] (t2 ++ '\\' :: 'f' :: x :: rest) from by
            simp [nextToken, nextTokenAux, hc.1, hc.2.1, hc.2.2]]
      rw [nextTokenAux_plain_chunk t2 [c] _ ht2]
      simp [nextTokenAux]
  case drop =>
    intro u d v hu hdf hdb
    cases u with
    | nil =>
      simp only [List.nil_append]
      rw [show nextToken ('\\' :: d :: v) = nextTokenAux false false [] (d :: v) from
        nextTokenAux_drop_backslash d v [] true hdf]
      exact (nextTokenAux_first_irrel d v [] false hdb).symm
    | cons c u2 =>
      have hc := hu c (List.mem_cons_self c u2)
      have hu2 : ∀ e ∈ u2, e ≠ ' ' ∧ e ≠ '"' ∧ e ≠ '\\' :=
        fun e he => hu e (List.mem_cons_of_mem c he)
      rw [List.cons_append, List.cons_append]
      rw [show nextToken (c :: (u2 ++ '\\' :: d :: v)) =
          nextTokenAux false false [c] (u2 ++ '\\' :: d :: v) from by
            simp [nextToken, nextTokenAux, hc.1, hc.2.1, hc.2.2]]
      rw [show nextToken (c :: (u2 ++ d :: v)) =
          nextTokenAux false false [c] (u2 ++ d :: v) from by
            simp [nextToken, nextTokenAux, hc.1, hc.2.1, hc.2.2]]
      rw [nextTokenAux_plain_chunk u2 [c] _ hu2, nextTokenAux_plain_chunk u2 [c] _ hu2]
      exact nextTokenAux_drop_backslash d v ([c] ++ u2) false hdf

/-- C4 witness. -/
theorem C4_witness :
    nextToken ('\\' :: 'f' :: 'B' :: "hello".toList) =
        some (['\\', 'f', 'B'], "hello".toList)
    ∧ nextToken ("hel".toList ++ '\\' :: 'f' :: 'B' :: "lo".toList) =
        some ("hel".toList, '\\' :: 'f' :: 'B' :: "lo".toList)
    ∧ nextToken ("ab".toList ++ '\\' :: '-' :: " ok".toList) =
        nextToken ("ab".toList ++ '-' :: " ok".toList) :=
  ⟨C4_font_escape_tokens.1 'B' "hello".toList,
   (C4_font_escape_tokens.2.1 "hel".toList 'B' "lo".toList (by decide) (by decide)).1,
   C4_font_escape_tokens.2.2 "ab".toList '-' " ok".toList (by decide) (by decide) (by decide)⟩

/-! ## C9 -/

/-- C9, counterexample: the claim characterises the panicking inputs as
"any string whose final character is a backslash".  The input `"a \"` ends
in a backslash, yet the call returns the pair `("a", "\")` normally: the
scan returns at the unquoted space before ever reading the lookahead. -/
theorem C9_counterexample : nextTokenS "a \\" = some ("a", "\\") := by rfl

/-- C9, amended: the tokenizer is indeed not total at the public interface —
any input made of non-space, non-backslash characters followed by a final
backslash makes the font-escape lookahead `input[i+1]` read past the end of
the string and panic instead of returning a pair; but a trailing backslash
alone is not sufficient, since the scan may return earlier (at an unquoted
space or an earlier font escape). -/
theorem C9_trailing_backslash_panics (t : List Char)
    (h : ∀ c ∈ t, c ≠ ' ' ∧ c ≠ '\\') :
    nextTokenS (String.mk (t ++ ['\\'])) = none := by
  have haux := nextTokenAux_trailing_backslash t [] true false h
  simp [nextTokenS, nextToken, haux]

/-- C9 witness. -/
theorem C9_witness : nextTokenS (String.mk ("abc".toList ++ ['\\'])) = none :=
  C9_trailing_backslash_panics "abc".toList (by decide)

/-! ## C5 -/

/-- C5: in the interpreter loop, the separator tokens `,` and `|` are
emitted as plain text spans and arm the repeat-last-macro flag; and when
the next token matches no macro case while the flag is armed, the remaining
line is re-prefixed with the last macro's name and retried with the flag
disarmed — no span is emitted for that token (`res` is unchanged). -/
theorem C5_separator_repeat (sub : FontSt → List Char → Option (List Span × FontSt))
    (st : LineState) (tok rest : List Char)
    (hnext : nextToken st.line = some (tok, rest)) :
    ((tok = [','] ∨ tok = ['|']) →
      stepCore sub st =
        .cont { st with res := st.res ++ [.text .plain (String.mk tok) false],
                        line := rest, repeatMacro := true })
    ∧ (tok ∉ knownTokens → st.repeatMacro = true →
      stepCore sub st =
        .cont { st with line := st.lastMacro ++ ' ' :: st.line, repeatMacro := false }) := by
  have hstep : stepCore sub st = stepTok sub st tok rest := by
    unfold stepCore
    rw [hnext]
  constructor
  · rintro (rfl | rfl) <;> rw [hstep] <;> rfl
  · intro hmem hrep
    simp only [knownTokens, List.mem_cons, List.mem_singleton, not_or] at hmem
    obtain ⟨hFl, hCm, hAr, hEv, hVa, hDv, hPa, hSy, hLi, hSt, hB, hI, hBR, hRB,
      hRI, hIR, hNs, hQl, hPq, hSq, hDq, hOp, hfB, hfI, hfR, hfP, hbd, hbc, hbs,
      hcm, hbar, hnil, -⟩ := hmem
    rw [hstep]
    unfold stepTok
    rw [if_neg (by simp [hnil]), if_neg hFl, if_neg hCm, if_neg hAr, if_neg hEv,
      if_neg (by simp [hVa, hDv]), if_neg hPa, if_neg hSy, if_neg hLi, if_neg hSt,
      if_neg hB, if_neg hI, if_neg hBR, if_neg hRB, if_neg hRI, if_neg hIR,
      if_neg hNs, if_neg hQl, if_neg hPq, if_neg hSq, if_neg hDq, if_neg hOp,
      if_neg hfB, if_neg hfI, if_neg hfR, if_neg hfP, if_neg hbd, if_neg hbc,
      if_neg hbs, if_neg (by simp [hcm, hbar]), if_neg hnil, if_pos hrep]

/-- C5 witness. -/
theorem C5_witness :
    stepCore (fun fs _ => some ([], fs))
        { line := [','], res := [], lastMacro := ['F', 'l'], repeatMacro := false,
          fonts := fonts0 } =
      .cont { line := [], res := [.text .plain "," false], lastMacro := ['F', 'l'],
              repeatMacro := true, fonts := fonts0 }
    ∧ stepCore (fun fs _ => some ([], fs))
        { line := ['x', 'x'], res := [], lastMacro := ['F', 'l'], repeatMacro := true,
          fonts := fonts0 } =
      .cont { line := ['F', 'l', ' ', 'x', 'x'], res := [], lastMacro := ['F', 'l'],
              repeatMacro := false, fonts := fonts0 } :=
  ⟨(C5_separator_repeat (fun fs _ => some ([], fs)) _ [','] [] (by rfl)).1 (Or.inl rfl),
   (C5_separator_repeat (fun fs _ => some ([], fs)) _ ['x', 'x'] [] (by rfl)).2
      (by decide) rfl⟩

/-! ## C6 -/

/-- C6: the no-space directive `Ns` sets the NoSpace flag of the most
recently emitted span in place, leaving every earlier span unchanged; an
`Ns` arriving while no span has been emitted yet indexes `res[-1]` and is a
fatal panic (DanglingNoSpace). -/
theorem C6_no_space (sub : FontSt → List Char → Option (List Span × FontSt))
    (st : LineState) (rest : List Char)
    (hnext : nextToken st.line = some (['N', 's'], rest)) :
    (st.res = [] → stepCore sub st = .fail)
    ∧ (∀ (pre : List Span) (t : TextTag) (x : String) (ns : Bool),
        st.res = pre ++ [.text t x ns] →
        stepCore sub st = .cont { st with res := pre ++ [.text t x true], line := rest })
    ∧ (∀ (pre : List Span) (f : String) (d ns : Bool),
        st.res = pre ++ [.flag f d ns] →
        stepCore sub st = .cont { st with res := pre ++ [.flag f d true], line := rest }) := by
  have hstep : stepCore sub st = stepTok sub st ['N', 's'] rest := by
    unfold stepCore
    rw [hnext]
  refine ⟨?_, ?_, ?_⟩
  · intro hres
    rw [hstep]
    unfold stepTok
    rw [hres]
    rfl
  · intro pre t x ns hres
    rw [hstep]
    unfold stepTok
    rw [hres, List.getLast?_concat, List.dropLast_concat]
    rfl
  · intro pre f d ns hres
    rw [hstep]
    unfold stepTok
    rw [hres, List.getLast?_concat, List.dropLast_concat]
    rfl

/-- C6 witness. -/
theorem C6_witness :
    stepCore (fun fs _ => some ([], fs))
        { line := ['N', 's'], res := [], lastMacro := [], repeatMacro := false,
          fonts := fonts0 } = .fail
    ∧ stepCore (fun fs _ => some ([], fs))
        { line := ['N', 's'], res := [.flag "t" true false], lastMacro := ['F', 'l'],
          repeatMacro := false, fonts := fonts0 } =
      .cont { line := [], res := [.flag "t" true true], lastMacro := ['F', 'l'],
              repeatMacro := false, fonts := fonts0 } :=
  ⟨(C6_no_space (fun fs _ => some ([], fs)) _ [] (by rfl)).1 rfl,
   (C6_no_space (fun fs _ => some ([], fs)) _ [] (by rfl)).2.2 [] "t" true false rfl⟩

/-! ## C7 -/

/-- C7: a list-begin whose option tokens select the tag kind but omit
`-width` panics inside the `.Bl` handler of `parseMdoc` — at list-begin
(parse) time, not at render time; and when `-width <token>` is present the
constructed list's tag width is the length of that token. -/
theorem C7_tag_list_width :
    (∀ args : List String,
        args.contains "-bullet" = false → args.contains "-enum" = false →
        args.contains "-tag" = true → args.contains "-width" = false →
        parseBl args = none)
    ∧ (∀ (args : List String) (i : Nat) (w : String) (cfg : ListVal),
        args.contains "-bullet" = false → args.contains "-enum" = false →
        args.contains "-tag" = true →
        List.findIdx? (fun a => a = "-width") args = some i → args[i + 1]? = some w →
        parseBl args = some cfg → cfg.width = w.length) := by
  constructor
  · intro args hb he ht hw
    have hb2 : ¬ ("-bullet" ∈ args) := by simpa using hb
    have he2 : ¬ ("-enum" ∈ args) := by simpa using he
    have ht2 : "-tag" ∈ args := by simpa using ht
    have hw2 : ¬ ("-width" ∈ args) := by simpa using hw
    have hidx : List.findIdx? (fun a => a = "-width") args = none := by
      rw [List.findIdx?_eq_none_iff]
      intro x hx
      simp only [decide_eq_false_iff_not]
      intro hxw
      subst hxw
      exact hw2 hx
    simp [parseBl, hb2, he2, ht2, hidx]
  · intro args i w cfg hb he ht hidx hget hcfg
    have hb2 : ¬ ("-bullet" ∈ args) := by simpa using hb
    have he2 : ¬ ("-enum" ∈ args) := by simpa using he
    have ht2 : "-tag" ∈ args := by simpa using ht
    simp [parseBl, hb2, he2, ht2, hidx, hget] at hcfg
    split at hcfg
    · exact absurd hcfg (by simp)
    · simp only [Option.some.injEq] at hcfg
      subst hcfg
      rfl

/-- C7 witness. -/
theorem C7_witness :
    parseBl ["-tag", "-compact"] = none
    ∧ (ListVal.mk .tag [] false 4 0 []).width = ("xxxx" : String).length :=
  ⟨C7_tag_list_width.1 ["-tag", "-compact"] (by decide) (by decide) (by decide) (by decide),
   C7_tag_list_width.2 ["-tag", "-width", "xxxx"] 1 "xxxx" (ListVal.mk .tag [] false 4 0 [])
     (by decide) (by decide) (by decide) (by rfl) (by rfl) (by rfl)⟩

/-! ## C8 -/

/-- C8: for every rendered column list and every one of its rows, the cell
count never exceeds the declared column count: excess tag spans are dropped
by the `len(row) >= nCols` break, and the implicit final cell accumulated
from content is only appended when the row is not already full (a full row
forces an empty accumulator). -/
theorem C8_row_cell_count (render : Span → Int → String) (width : Int) (l : ListVal)
    (row : List String) (hrow : row ∈ renderTableRows render width l) :
    row.length ≤ l.columns.length := by
  simp only [renderTableRows, List.mem_map] at hrow
  obtain ⟨it, _, rfl⟩ := hrow
  calc (buildRow render (computeColumns width l.columns) it.tag).length
      ≤ (computeColumns width l.columns).length := buildRow_length ..
    _ = l.columns.length := computeColumns_length ..

/-- C8 witness: a 2-column list whose single item has an excess of spans. -/
theorem C8_witness :
    (["x", "x"] : List String).length ≤
      (ListVal.mk .column
        [.mk [.text .plain "a" false, .text .tableCellSeparator "" false,
              .text .plain "b" false, .text .tableCellSeparator "" false,
              .text .plain "c" false] []]
        false 0 0 ["A", "B"]).columns.length :=
  C8_row_cell_count (fun _ _ => "x") 20
    (ListVal.mk .column
      [.mk [.text .plain "a" false, .text .tableCellSeparator "" false,
            .text .plain "b" false, .text .tableCellSeparator "" false,
            .text .plain "c" false] []]
      false 0 0 ["A", "B"])
    ["x", "x"]
    (by
      rw [show renderTableRows (fun _ _ => "x") 20
          (ListVal.mk .column
            [.mk [.text .plain "a" false, .text .tableCellSeparator "" false,
                  .text .plain "b" false, .text .tableCellSeparator "" false,
                  .text .plain "c" false] []]
            false 0 0 ["A", "B"]) = [["x", "x"]] from rfl]
      exact List.mem_singleton.mpr rfl)

/-! ## C10 -/

/-- C10: a list-item directive line arriving while the list-nesting stack
is empty makes the document builder panic — `lists.Peek()` indexes the
empty underlying slice at `items[len(items)-1]` — rather than recover or
report a named error kind.  (The hypotheses rule the line out of the three
regex branches that are checked earlier and could capture a `.It`-prefixed
line containing `.Dt`/`.Nm`/`.Xr` elsewhere on the line.) -/
theorem C10_item_without_list (n : Nat) (st : BuildState) (rest : List Char)
    (hstack : st.lists = [])
    (hmdoc : mdocTitleFind ('.' :: 'I' :: 't' :: rest) = none)
    (hnm : nameFullFind ('.' :: 'I' :: 't' :: rest) = none)
    (hxr : xrFind ('.' :: 'I' :: 't' :: rest) = none) :
    processLine n st ('.' :: 'I' :: 't' :: rest) = none := by
  simp [processLine, startsWithStr, hmdoc, hnm, hxr, hstack]
  split <;> rfl

/-- C10 witness. -/
theorem C10_witness :
    processLine 5
      { name := "", sectionNum := 0, date := "", extra := "", sections := [],
        current := some ⟨"DESCRIPTION", []⟩, savedName := "", lists := [],
        fonts := fonts0 }
      ('.' :: 'I' :: 't' :: " xx".toList) = none :=
  C10_item_without_list 5 _ " xx".toList rfl (by rfl) (by rfl) (by rfl)

end ManDoc
